import Mathlib

/-!
Verification of the heuristic extraction / reconciliation core of
MacDataProcessor (src/ArtWork.py) against its natural-language spec.

Strings are modelled as lists of characters (`Str`).  Character classes
(digits, ASCII case, whitespace) are expressed through `Char.toNat`
codepoint arithmetic, matching Python's behaviour on the ASCII inputs the
program manipulates.  Pandas NaN cells are modelled as `Option Str` with
`none` playing the role of NaN; `astype(str)` turns NaN into the literal
string "nan", which `pyStr` reproduces.
-/

abbrev Str := List Char

def s2l (s : String) : Str := s.data

/-- re.sub and str.isdigit on the program's data: ASCII decimal digits. -/
def isDig (c : Char) : Bool := decide (48 ≤ c.toNat ∧ c.toNat ≤ 57)

/-- Whitespace stripped by str.strip on the program's data. -/
def isWS (c : Char) : Bool :=
  decide (c.toNat = 32 ∨ c.toNat = 9 ∨ c.toNat = 10 ∨ c.toNat = 13)

/-- Python str.lower on the ASCII range. -/
def pyLowerChar (c : Char) : Char :=
  if 65 ≤ c.toNat ∧ c.toNat ≤ 90 then Char.ofNat (c.toNat + 32) else c

/-- Python str.upper on the ASCII range. -/
def pyUpperChar (c : Char) : Char :=
  if 97 ≤ c.toNat ∧ c.toNat ≤ 122 then Char.ofNat (c.toNat - 32) else c

def lowerS (s : Str) : Str := s.map pyLowerChar

def upperS (s : Str) : Str := s.map pyUpperChar

/-- Python str.strip(). -/
def strip (s : Str) : Str :=
  ((s.dropWhile isWS).reverse.dropWhile isWS).reverse

/-- astype(str) of one cell: NaN prints as "nan". -/
def pyStr (c : Option Str) : Str :=
  match c with
  | none => s2l "nan"
  | some v => v

/-- Series.str.extract(r'(\d+)'): the first maximal run of digits, NaN if none. -/
def firstDigitRun : Str → Option Str
  | [] => none
  | c :: rest =>
    if isDig c then some (c :: rest.takeWhile isDig) else firstDigitRun rest

/-- str(int(s)) for a nonempty digit string s: drop leading zeros ("000" gives "0"). -/
def canonDigits (s : Str) : Str :=
  match s.dropWhile (fun c => c = '0') with
  | [] => ['0']
  | r => r

/-- clean_item_number (src/ArtWork.py lines 945-963): strip, reject null-ish
text, keep only digits, then strip leading zeros via str(int(.)). -/
def clean_item_number (v : Str) : Str :=
  if lowerS (strip v) = s2l "nan" ∨ lowerS (strip v) = s2l "none" ∨
      lowerS (strip v) = s2l "null" ∨ lowerS (strip v) = []
  then []
  else if (strip v).filter isDig = [] then []
  else canonDigits ((strip v).filter isDig)

/-- The vectorized key-cleaning of extract_file (line 750):
astype(str).str.extract(r'(\d+)') applied to one cell. -/
def extractKeyCell (c : Option Str) : Option Str :=
  firstDigitRun (pyStr c)

-- ## Character-level lemmas

theorem isDig_not_isWS {c : Char} (h : isDig c = true) : isWS c = false := by
  simp only [isDig, decide_eq_true_eq] at h
  simp only [isWS, decide_eq_false_iff_not]
  omega

theorem isDig_pyLowerChar {c : Char} (h : isDig c = true) : pyLowerChar c = c := by
  simp only [isDig, decide_eq_true_eq] at h
  simp only [pyLowerChar]
  rw [if_neg]
  omega

theorem dropWhile_eq_self_of_all {p : Char → Bool} {s : Str}
    (h : ∀ c ∈ s, p c = false) : s.dropWhile p = s := by
  cases s with
  | nil => rfl
  | cons a t =>
    rw [List.dropWhile_cons, if_neg]
    simp [h a (List.mem_cons_self a t)]

theorem strip_of_allDig {s : Str} (h : ∀ c ∈ s, isDig c = true) : strip s = s := by
  unfold strip
  rw [dropWhile_eq_self_of_all (fun c hc => isDig_not_isWS (h c hc))]
  rw [dropWhile_eq_self_of_all (fun c hc => isDig_not_isWS (h c (List.mem_reverse.mp hc)))]
  exact List.reverse_reverse s

theorem lowerS_of_allDig {s : Str} (h : ∀ c ∈ s, isDig c = true) : lowerS s = s := by
  unfold lowerS
  rw [List.map_congr_left (fun c hc => isDig_pyLowerChar (h c hc))]
  exact List.map_id s

theorem canonDigits_allDig {s : Str} (h : ∀ c ∈ s, isDig c = true) :
    ∀ c ∈ canonDigits s, isDig c = true := by
  cases hd : s.dropWhile (fun c => c = '0') with
  | nil =>
    have hs : canonDigits s = ['0'] := by rw [canonDigits, hd]
    rw [hs]
    intro c hc
    simp at hc
    subst hc
    decide
  | cons a t =>
    have hs : canonDigits s = a :: t := by rw [canonDigits, hd]
    rw [hs]
    intro c hc
    exact h c (List.dropWhile_subset _ (by rw [hd]; exact hc))

theorem canonDigits_ne_nil (s : Str) : canonDigits s ≠ [] := by
  unfold canonDigits
  cases s.dropWhile (fun c => c = '0') <;> simp

theorem dropWhile_head_false {p : Char → Bool} {l : Str} {a : Char} {t : Str}
    (h : l.dropWhile p = a :: t) : p a = false := by
  induction l with
  | nil => simp at h
  | cons x xs ih =>
    rw [List.dropWhile_cons] at h
    by_cases hx : p x = true
    · rw [if_pos hx] at h; exact ih h
    · rw [if_neg hx] at h
      cases h
      simpa using hx

theorem canonDigits_idem (s : Str) : canonDigits (canonDigits s) = canonDigits s := by
  cases hd : s.dropWhile (fun c => c = '0') with
  | nil =>
    have hs : canonDigits s = ['0'] := by rw [canonDigits, hd]
    rw [hs]
    decide
  | cons a t =>
    have hs : canonDigits s = a :: t := by rw [canonDigits, hd]
    have ha : decide (a = '0') = false := dropWhile_head_false hd
    rw [hs, canonDigits, List.dropWhile_cons]
    simp [ha]

theorem allDig_ne_lit {s : Str} (h : ∀ c ∈ s, isDig c = true) (a : Char) (t : Str)
    (ha : isDig a = false) : s ≠ a :: t := by
  intro he
  subst he
  have := h a (List.mem_cons_self a t)
  rw [ha] at this
  exact Bool.false_ne_true this

/-- Helper: clean_item_number is idempotent. -/
theorem clean_item_number_idem (v : Str) :
    clean_item_number (clean_item_number v) = clean_item_number v := by
  by_cases h1 : lowerS (strip v) = s2l "nan" ∨ lowerS (strip v) = s2l "none" ∨
      lowerS (strip v) = s2l "null" ∨ lowerS (strip v) = []
  · have hcv : clean_item_number v = [] := by rw [clean_item_number, if_pos h1]
    rw [hcv]
    decide
  · by_cases h2 : (strip v).filter isDig = []
    · have hcv : clean_item_number v = [] := by
        rw [clean_item_number, if_neg h1, if_pos h2]
      rw [hcv]
      decide
    · have hcv : clean_item_number v = canonDigits ((strip v).filter isDig) := by
        rw [clean_item_number, if_neg h1, if_neg h2]
      rw [hcv]
      have hdig : ∀ c ∈ (strip v).filter isDig, isDig c = true := by
        intro c hc
        exact (List.mem_filter.mp hc).2
      have hodig : ∀ c ∈ canonDigits ((strip v).filter isDig), isDig c = true :=
        canonDigits_allDig hdig
      have hone : canonDigits ((strip v).filter isDig) ≠ [] :=
        canonDigits_ne_nil ((strip v).filter isDig)
      rw [clean_item_number]
      rw [strip_of_allDig hodig, lowerS_of_allDig hodig]
      rw [if_neg]
      · rw [List.filter_eq_self.mpr hodig]
        rw [if_neg hone]
        exact canonDigits_idem ((strip v).filter isDig)
      · push_neg
        refine ⟨?_, ?_, ?_, hone⟩
        · exact allDig_ne_lit hodig 'n' _ (by decide)
        · exact allDig_ne_lit hodig 'n' _ (by decide)
        · exact allDig_ne_lit hodig 'n' _ (by decide)

theorem firstDigitRun_spec {v s : Str} (h : firstDigitRun v = some s) :
    s ≠ [] ∧ ∀ c ∈ s, isDig c = true := by
  induction v with
  | nil => simp [firstDigitRun] at h
  | cons a rest ih =>
    rw [firstDigitRun] at h
    by_cases ha : isDig a = true
    · rw [if_pos ha] at h
      cases h
      refine ⟨by simp, ?_⟩
      intro c hc
      rcases List.mem_cons.mp hc with hc | hc
      · subst hc; exact ha
      · exact List.mem_takeWhile_imp hc
    · rw [if_neg ha] at h
      exact ih h

theorem takeWhile_eq_self_of_all {p : Char → Bool} {s : Str}
    (h : ∀ c ∈ s, p c = true) : s.takeWhile p = s := by
  induction s with
  | nil => rfl
  | cons a t ih =>
    rw [List.takeWhile_cons, if_pos (h a (List.mem_cons_self a t))]
    rw [ih (fun c hc => h c (List.mem_cons_of_mem a hc))]

theorem firstDigitRun_of_allDig {s : Str} (hne : s ≠ [])
    (h : ∀ c ∈ s, isDig c = true) : firstDigitRun s = some s := by
  cases s with
  | nil => exact absurd rfl hne
  | cons a t =>
    rw [firstDigitRun, if_pos (h a (List.mem_cons_self a t))]
    rw [takeWhile_eq_self_of_all (fun c hc => h c (List.mem_cons_of_mem a hc))]

/-- Helper: the vectorized digit-run extraction is idempotent. -/
theorem extractKeyCell_idem (c : Option Str) :
    extractKeyCell (extractKeyCell c) = extractKeyCell c := by
  cases he : extractKeyCell c with
  | none => rfl
  | some s =>
    rw [extractKeyCell] at he ⊢
    obtain ⟨hne, hdig⟩ := firstDigitRun_spec he
    simpa [pyStr] using firstDigitRun_of_allDig hne hdig

-- ## SchemaInferencer: find_header_row_fast (src/ArtWork.py lines 813-844)

/-- re.sub(r'[^a-z0-9]', '', s): keep only lowercase letters and digits. -/
def isAlnumLow (c : Char) : Bool :=
  decide ((48 ≤ c.toNat ∧ c.toNat ≤ 57) ∨ (97 ≤ c.toNat ∧ c.toNat ≤ 122))

def stripNonAlnum (s : Str) : Str := s.filter isAlnumLow

/-- The production column-pattern table of intelligent_data_extraction
(lines 701-708). -/
def column_patterns : List (Str × List Str) :=
  [ (s2l "Item Number", [s2l "item #", s2l "item#", s2l "itemnumber", s2l "item number"])
  , (s2l "VBU", [s2l "vbu", s2l "v.b.u", s2l "vbu (if provided)", s2l "vertical business unit"])
  , (s2l "Product Vendor Company Name", [s2l "vendor name", s2l "vendor", s2l "supplier"])
  , (s2l "Brand", [s2l "brand"])
  , (s2l "Product Name", [s2l "item description", s2l "description", s2l "product name"])
  , (s2l "SKU New/Existing", [s2l "sku", s2l "sku new/existing"]) ]

/-- Substring containment (Python "in" on strings). -/
def substrIn (p : Str) : Str → Bool
  | [] => p.isEmpty
  | c :: t => p.isPrefixOf (c :: t) || substrIn p t

/-- df_sample.iloc[row].astype(str).str.lower().str.strip() on one cell. -/
def cellToHeader (c : Option Str) : Str := strip (lowerS (pyStr c))

/-- Does one cleaned header cell match any pattern of one canonical field? -/
def cellMatches (pats : List Str) (h : Str) : Bool :=
  pats.any (fun p => substrIn (stripNonAlnum p) (stripNonAlnum h))

/-- The inner "for header in headers" loop of find_header_row_fast for one
canonical field.  Faithful to the source's control flow: the 'nan'/empty
guard skips a cell entirely; a matching cell increments the score once; and
after every examined cell the loop breaks as soon as score > best_score. -/
def scanHeaders (pats : List Str) (best : Nat) : Nat → List Str → Nat
  | score, [] => score
  | score, h :: rest =>
    if h = s2l "nan" ∨ h = [] then scanHeaders pats best score rest
    else
      if cellMatches pats h then
        if best < score + 1 then score + 1 else scanHeaders pats best (score + 1) rest
      else
        if best < score then score else scanHeaders pats best score rest

/-- Score of one candidate row, as find_header_row_fast computes it
(the "for target, patterns in column_patterns.items()" loop). -/
def rowScore (headers : List Str) (best : Nat) : Nat :=
  column_patterns.foldl (fun score tp => scanHeaders tp.2 best score headers) 0

/-- The row loop of find_header_row_fast: track best row/score, early-exit
at score >= 3, and at the end require best score >= 2. -/
def findHeaderAux : Option Nat → Nat → Nat → List (List (Option Str)) → Option Nat
  | bestRow, bestScore, _, [] => if 2 ≤ bestScore then bestRow else none
  | bestRow, bestScore, idx, row :: rest =>
    let score := rowScore (row.map cellToHeader) bestScore
    let br := if bestScore < score then some idx else bestRow
    let bs := if bestScore < score then score else bestScore
    if 3 ≤ score then br else findHeaderAux br bs (idx + 1) rest

/-- find_header_row_fast (lines 813-844): scan at most the first 15 rows. -/
def find_header_row_fast (sample : List (List (Option Str))) : Option Nat :=
  findHeaderAux none 0 0 (sample.take 15)

/-- Modelled from the spec: the row score the spec describes for the
SchemaInferencer, "row score = number of canonical fields with at least one
match" among the row's normalized cells. -/
def specRowScore (row : List (Option Str)) : Nat :=
  (column_patterns.filter (fun tp =>
    (row.map cellToHeader).any (fun h =>
      decide (h ≠ s2l "nan") && decide (h ≠ []) && cellMatches tp.2 h))).length

-- ## Dates

structure Date where
  year : Nat
  month : Nat
  day : Nat
deriving DecidableEq, Repr

/-- Calendar comparison (pandas Timestamp.date() ordering). -/
def dateLE (a b : Date) : Bool :=
  decide (a.year < b.year ∨ (a.year = b.year ∧
    (a.month < b.month ∨ (a.month = b.month ∧ a.day ≤ b.day))))

def isLeap (y : Nat) : Bool :=
  decide ((y % 4 = 0 ∧ y % 100 ≠ 0) ∨ y % 400 = 0)

def daysInMonth (y m : Nat) : Nat :=
  if m = 2 then (if isLeap y then 29 else 28)
  else if m = 4 ∨ m = 6 ∨ m = 9 ∨ m = 11 then 30
  else 31

def mkDate (d m y : Nat) : Option Date :=
  if 1 ≤ m ∧ m ≤ 12 ∧ 1 ≤ d ∧ d ≤ daysInMonth y m then some ⟨y, m, d⟩ else none

/-- strptime %y pivot: 00-68 means 20xx, 69-99 means 19xx. -/
def year2 (n : Nat) : Nat := if n ≤ 68 then 2000 + n else 1900 + n

def splitSlash : Str → List Str
  | [] => [[]]
  | c :: rest =>
    match splitSlash rest with
    | [] => [[]]
    | p :: ps => if c = '/' then [] :: p :: ps else (c :: p) :: ps

def digToNat (c : Char) : Nat := c.toNat - 48

def digitsToNat (s : Str) : Nat := s.foldl (fun a c => 10 * a + digToNat c) 0

def allDig (s : Str) : Bool := s.all isDig

/-- pd.to_datetime(v, format='%d/%m/%y', errors='coerce') on a string cell:
strict day/month/2-digit-year with calendar validation. -/
def parse_dmy2 (s : Str) : Option Date :=
  match splitSlash s with
  | [ds, ms, ys] =>
    if allDig ds ∧ allDig ms ∧ allDig ys ∧
        1 ≤ ds.length ∧ ds.length ≤ 2 ∧ 1 ≤ ms.length ∧ ms.length ≤ 2 ∧ ys.length = 2
    then mkDate (digitsToNat ds) (digitsToNat ms) (year2 (digitsToNat ys))
    else none
  | _ => none

/-- pd.to_datetime(v, format='%d/%m/%Y', errors='coerce') on a string cell:
strict day/month/4-digit-year. -/
def parse_dmy4 (s : Str) : Option Date :=
  match splitSlash s with
  | [ds, ms, ys] =>
    if allDig ds ∧ allDig ms ∧ allDig ys ∧
        1 ≤ ds.length ∧ ds.length ≤ 2 ∧ 1 ≤ ms.length ∧ ms.length ≤ 2 ∧ ys.length = 4
    then mkDate (digitsToNat ds) (digitsToNat ms) (digitsToNat ys)
    else none
  | _ => none

/-- Model of pd.to_datetime(v, errors='coerce') with NO format argument
(the call in process_tracker_sheet_fast, line 1075), restricted to the
slash-separated numeric date strings this pipeline produces: pandas'
default parser is month-first (dayfirst=False) and falls back to
day-first only when the first component cannot be a month. -/
def pdToDatetime (s : Str) : Option Date :=
  match splitSlash s with
  | [as', bs, ys] =>
    if allDig as' ∧ allDig bs ∧ allDig ys ∧
        1 ≤ as'.length ∧ as'.length ≤ 2 ∧ 1 ≤ bs.length ∧ bs.length ≤ 2 ∧
        (ys.length = 2 ∨ ys.length = 4)
    then
      let a := digitsToNat as'
      let b := digitsToNat bs
      let y := if ys.length = 2 then year2 (digitsToNat ys) else digitsToNat ys
      if a ≤ 12 then mkDate b a y else mkDate a b y
    else none
  | _ => none

def digitChar (n : Nat) : Char := Char.ofNat (48 + n % 10)

def pad2 (n : Nat) : Str := [digitChar (n / 10), digitChar n]

/-- Timestamp.strftime("%d/%m/%y"). -/
def fmtDMY2 (d : Date) : Str :=
  pad2 d.day ++ '/' :: pad2 d.month ++ '/' :: pad2 (d.year % 100)

-- ## Record types

/-- One consolidated production record (the canonical fields extracted by
extract_columns_fast, provenance columns omitted as inert payload). -/
structure CRow where
  itemNumber : Str
  vendor : Str
deriving DecidableEq, Repr

/-- One raw tracker-sheet row restricted to the mapped columns
(none = NaN cell). -/
structure TrackRaw where
  rounds : Option Str
  pkg1 : Option Str
  hugoId : Option Str
  releaseDate : Option Str
deriving DecidableEq, Repr

/-- One processed tracker record (output row of process_tracker_sheet_fast).
releaseDate is Option Str because a failed strftime leaves NaN, not "". -/
structure TrackRec where
  rounds : Str
  pkg1 : Str
  hugoId : Str
  releaseDate : Option Str
  reRelease : Str
deriving DecidableEq, Repr

-- ## TrackerProcessor: process_tracker_sheet_fast (lines 1019-1087)

/-- The three accepted status literals (line 1059). -/
def filterVals : List Str :=
  [s2l "File Release", s2l "File Re-Release R2", s2l "File Re-Release R3"]

/-- df[rounds_col].isin(filter_vals) for one row (NaN is in no list). -/
def trackKeep (r : TrackRaw) : Bool :=
  match r.rounds with
  | some v => decide (v ∈ filterVals)
  | none => false

/-- The Artwork Release Date transformation (lines 1070-1077): cells that
are NaN or "" keep the initialized ""; other cells are parsed by
pd.to_datetime with no format and reformatted by strftime("%d/%m/%y"),
a parse failure leaving NaN (none). -/
def trackDate (c : Option Str) : Option Str :=
  match c with
  | none => some []
  | some v => if v = [] then some [] else (pdToDatetime v).map fmtDMY2

/-- Re-Release Status (lines 1082-1083): "Yes" iff the upper-cased rounds
text contains "R2" or "R3", else "". -/
def reReleaseOf (rounds : Option Str) : Str :=
  if substrIn (s2l "R2") (upperS (pyStr rounds)) ||
     substrIn (s2l "R3") (upperS (pyStr rounds))
  then s2l "Yes" else []

/-- Building one output row of process_tracker_sheet_fast from a retained
raw row (pass-through columns get fillna("")). -/
def trackTransform (r : TrackRaw) : TrackRec :=
  { rounds := (r.rounds).getD []
  , pkg1 := (r.pkg1).getD []
  , hugoId := (r.hugoId).getD []
  , releaseDate := trackDate r.releaseDate
  , reRelease := reReleaseOf r.rounds }

/-- process_tracker_sheet_fast, given that the Rounds column was found:
filter by the status literals, return None when nothing survives,
otherwise transform every surviving row. -/
def processTrackerSheet (rows : List TrackRaw) : Option (List TrackRec) :=
  if rows.filter trackKeep = [] then none
  else some ((rows.filter trackKeep).map trackTransform)

/-- Modelled from the spec: "parse with format day/month/2-digit-year and
reformat to the same format as text; leave empty on parse failure". -/
def specTrackDate (v : Str) : Str :=
  match parse_dmy2 v with
  | some d => fmtDMY2 d
  | none => []

-- ## FileConsolidator: dedup and key normalization (lines 743-752, 788-793)

/-- DataFrame.drop_duplicates(subset=['Item Number'], keep='first'). -/
def dedupAux (seen : List Str) : List CRow → List CRow
  | [] => []
  | r :: rest =>
    if r.itemNumber ∈ seen then dedupAux seen rest
    else r :: dedupAux (r.itemNumber :: seen) rest

def dedupFirst (rows : List CRow) : List CRow := dedupAux [] rows

/-- The per-cell key normalization of extract_file line 750 followed by the
notna/nonempty filter of lines 751-752, applied to one record. -/
def normRow (r : CRow) : Option CRow :=
  (firstDigitRun r.itemNumber).bind
    (fun k => if k = [] then none else some { r with itemNumber := k })

/-- extract_file lines 743-752: concatenate the file's sheet results,
deduplicate on Item Number keeping the first, then normalize the key to
its first digit run and drop rows without one. -/
def perFileFinal (sheets : List (List CRow)) : List CRow :=
  (dedupFirst sheets.flatten).filterMap normRow

/-- intelligent_data_extraction lines 788-790: concatenate every per-file
result (in completion order) and deduplicate globally, first wins. -/
def consolidate (files : List (List (List CRow))) : List CRow :=
  dedupFirst ((files.map perFileFinal).flatten)

-- ## Reconciler: combine_datasets (lines 1089-1120)

/-- Merge_Key of a consolidated row (line 1099). -/
def mergeKeyL (r : CRow) : Str := (firstDigitRun r.itemNumber).getD []

/-- Merge_Key of a tracker record (line 1100, extracted from PKG1). -/
def mergeKeyR (t : TrackRec) : Str := (firstDigitRun t.pkg1).getD []

def tagBoth : Str := s2l "Step1 + Step2"
def tagLeft : Str := s2l "Step1 Only"
def tagRight : Str := s2l "Step2 Only"

/-- One reconciled row of the outer merge: the two sides (none = this
side's columns are all NaN), the merge key, and the Data_Source tag. -/
structure JRow where
  left : Option CRow
  right : Option TrackRec
  key : Str
  tag : Str
deriving DecidableEq, Repr

def matchesR (rs : List TrackRec) (k : Str) : List TrackRec :=
  rs.filter (fun r => mergeKeyR r = k)

/-- The merge rows produced for one left record: all key matches tagged
both, or a single left-only row. -/
def mergeBlock (rs : List TrackRec) (l : CRow) : List JRow :=
  if matchesR rs (mergeKeyL l) = []
  then [⟨some l, none, mergeKeyL l, tagLeft⟩]
  else (matchesR rs (mergeKeyL l)).map (fun r => ⟨some l, some r, mergeKeyL l, tagBoth⟩)

/-- The right-only rows of the outer merge. -/
def rightOnly (ls : List CRow) (rs : List TrackRec) : List JRow :=
  (rs.filter (fun r => !(ls.any (fun l => mergeKeyL l = mergeKeyR r)))).map
    (fun r => ⟨none, some r, mergeKeyR r, tagRight⟩)

/-- pd.merge(step1, step2, on='Merge_Key', how='outer', indicator=True)
with the Data_Source tagging of lines 1106-1111.  Row order is modelled as
left-blocks then right-only; no theorem below depends on row order. -/
def outerMerge (ls : List CRow) (rs : List TrackRec) : List JRow :=
  ls.flatMap (mergeBlock rs) ++ rightOnly ls rs

/-- combine_datasets (lines 1089-1120): fail on an empty input, normalize
both keys, drop empty-key rows, outer-merge.  none = the stage returned
False. -/
def combine_datasets (c : List CRow) (t : List TrackRec) : Option (List JRow) :=
  if c = [] ∨ t = [] then none
  else some (outerMerge (c.filter (fun r => mergeKeyL r ≠ []))
                        (t.filter (fun r => mergeKeyR r ≠ [])))

-- ## DateRangeFilter: filter_by_date_range (lines 1122-1178)

/-- Column-name heuristic of lines 1131-1143: first a column containing
artwork, release and date (case-insensitive), else one containing release
and date. -/
def findDateCol (cols : List Str) : Option Str :=
  match cols.find? (fun c => substrIn (s2l "artwork") (lowerS c) &&
      substrIn (s2l "release") (lowerS c) && substrIn (s2l "date") (lowerS c)) with
  | some c => some c
  | none => cols.find? (fun c => substrIn (s2l "release") (lowerS c) &&
      substrIn (s2l "date") (lowerS c))

/-- The columns of the combined DataFrame (left frame columns, right frame
columns, then Data_Source), used by the date-column heuristic. -/
def combinedCols : List Str :=
  [ s2l "Item Number", s2l "VBU", s2l "Product Vendor Company Name", s2l "Brand"
  , s2l "Product Name", s2l "SKU New/Existing", s2l "Source_File", s2l "Source_Folder"
  , s2l "Merge_Key", s2l "HUGO ID", s2l "File Name", s2l "Rounds", s2l "PKG1"
  , s2l "Artwork Release Date", s2l "5 Weeks After Artwork Release"
  , s2l "Entered into HUGO Date", s2l "Entered in HUGO?", s2l "Store Date"
  , s2l "Packaging Format 1", s2l "Printer Code 1 (LW Code)"
  , s2l "Printer Company Name 1", s2l "Vendor e-mail 1", s2l "Printer e-mail 1"
  , s2l "Re-Release Status", s2l "Data_Source" ]

/-- The Artwork Release Date cell of a reconciled row: NaN for rows without
a tracker side, else the tracker value (itself possibly NaN). -/
def dateCell (j : JRow) : Option Str := j.right.bind TrackRec.releaseDate

/-- The two-pass parse of lines 1153-1162: %d/%m/%y first, then %d/%m/%Y on
the rows still NaT. -/
def parsedDate (j : JRow) : Option Date :=
  match (dateCell j).bind parse_dmy2 with
  | some d => some d
  | none => (dateCell j).bind parse_dmy4

/-- The retention mask of lines 1165-1169: parsed, and within the
inclusive range. -/
def keepRow (s e : Date) (j : JRow) : Bool :=
  match parsedDate j with
  | some d => dateLE s d && dateLE d e
  | none => false

/-- filter_by_date_range with an explicit exception oracle: err = true
models an exception inside the try-block's parsing/filtering body, which
the except-handler of lines 1176-1178 turns into success with
self.combined_data untouched.  Returns (new combined data, stage flag). -/
def filter_by_date_rangeE (cols : List Str) (s e : Date) (rows : List JRow)
    (err : Bool) : List JRow × Bool :=
  if rows = [] then (rows, false)
  else match findDateCol cols with
  | none => (rows, true)
  | some _ => if err then (rows, true) else (rows.filter (keepRow s e), true)

/-- filter_by_date_range (lines 1122-1178) on an exception-free run. -/
def filter_by_date_range (cols : List Str) (s e : Date) (rows : List JRow) :
    List JRow × Bool :=
  filter_by_date_rangeE cols s e rows false

-- ## OutputProjector: format_final_output (lines 1180-1232)

/-- A canonical output record restricted to the modelled fields (the
remaining pass-through fields behave exactly like hugoId). -/
structure FinalRec where
  itemNumber : Str
  vendor : Str
  hugoId : Str
  releaseDate : Str
  reRelease : Str
deriving DecidableEq, Repr

/-- Projection of one reconciled row onto the canonical schema with
fillna('') (lines 1211-1221). -/
def projectRow (j : JRow) : FinalRec :=
  { itemNumber := (j.left.map CRow.itemNumber).getD []
  , vendor := (j.left.map CRow.vendor).getD []
  , hugoId := (j.right.map TrackRec.hugoId).getD []
  , releaseDate := ((j.right.bind TrackRec.releaseDate).getD [])
  , reRelease := (j.right.map TrackRec.reRelease).getD [] }

/-- format_final_output (lines 1180-1232): empty input yields an empty
output and success; otherwise project, null-fill, and drop rows whose
trimmed Item Number is empty.  The Bool is the stage flag. -/
def format_final_output (combined : List JRow) : List FinalRec × Bool :=
  if combined = [] then ([], true)
  else ((combined.map projectRow).filter (fun fr => strip fr.itemNumber ≠ []), true)

-- ## Generic list lemmas

theorem filter_nil_of_all_false {α : Type} (p : α → Bool) (l : List α)
    (h : ∀ a ∈ l, p a = false) : l.filter p = [] := by
  induction l with
  | nil => rfl
  | cons a t ih =>
    rw [List.filter_cons, if_neg]
    · exact ih (fun b hb => h b (List.mem_cons_of_mem a hb))
    · simp [h a (List.mem_cons_self a t)]

theorem len_filter_pos_neg {α : Type} (p : α → Bool) (l : List α) :
    (l.filter p).length + (l.filter (fun a => !(p a))).length = l.length := by
  induction l with
  | nil => rfl
  | cons a t ih =>
    cases hp : p a <;> simp [List.filter_cons, hp] <;> omega

theorem filter_key_len_le_one {α : Type} (κ : α → Str) (k : Str) :
    ∀ (l : List α), l.Pairwise (fun a b => κ a ≠ κ b) →
      (l.filter (fun a => κ a = k)).length ≤ 1 := by
  intro l
  induction l with
  | nil => intro _; simp
  | cons a t ih =>
    intro h
    rw [List.pairwise_cons] at h
    rw [List.filter_cons]
    by_cases ha : κ a = k
    · rw [if_pos (by simp [ha])]
      have ht : t.filter (fun b => κ b = k) = [] := by
        apply filter_nil_of_all_false
        intro b hb
        simp only [decide_eq_false_iff_not]
        intro hbk
        exact h.1 b hb (ha.trans hbk.symm)
      simp [ht]
    · rw [if_neg (by simp [ha])]
      exact ih h.2

theorem singleton_of_mem_len_le_one {α : Type} {l : List α} {a : α}
    (hm : a ∈ l) (hl : l.length ≤ 1) : l = [a] := by
  cases l with
  | nil => simp at hm
  | cons x t =>
    cases t with
    | nil =>
      simp at hm
      rw [hm]
    | cons y u => simp at hl

theorem nodup_filter_eq_len {α : Type} [DecidableEq α] {l : List α} {a : α}
    (hn : l.Nodup) (hm : a ∈ l) :
    (l.filter (fun x => x = a)).length = 1 := by
  induction l with
  | nil => simp at hm
  | cons x t ih =>
    rw [List.nodup_cons] at hn
    rw [List.filter_cons]
    by_cases hx : x = a
    · rw [if_pos (by simp [hx])]
      have ht : t.filter (fun b => b = a) = [] := by
        apply filter_nil_of_all_false
        intro b hb
        simp only [decide_eq_false_iff_not]
        intro hba
        exact hn.1 (by rw [hx, ← hba]; exact hb)
      simp [ht]
    · rw [if_neg (by simp [hx])]
      rcases List.mem_cons.mp hm with h | h
      · exact absurd h.symm hx
      · exact ih hn.2 h

-- ## Dedup lemmas (drop_duplicates keep='first')

theorem dedupAux_mem_not_seen {seen : List Str} {rows : List CRow} {r : CRow}
    (h : r ∈ dedupAux seen rows) : r.itemNumber ∉ seen := by
  induction rows generalizing seen with
  | nil => simp [dedupAux] at h
  | cons x rest ih =>
    rw [dedupAux] at h
    by_cases hx : x.itemNumber ∈ seen
    · rw [if_pos hx] at h
      exact ih h
    · rw [if_neg hx] at h
      rcases List.mem_cons.mp h with h | h
      · subst h; exact hx
      · have := ih h
        intro hc
        exact this (List.mem_cons_of_mem _ hc)

theorem dedupAux_pairwise (seen : List Str) (rows : List CRow) :
    (dedupAux seen rows).Pairwise (fun a b => a.itemNumber ≠ b.itemNumber) := by
  induction rows generalizing seen with
  | nil => exact List.Pairwise.nil
  | cons x rest ih =>
    rw [dedupAux]
    by_cases hx : x.itemNumber ∈ seen
    · rw [if_pos hx]
      exact ih seen
    · rw [if_neg hx]
      rw [List.pairwise_cons]
      refine ⟨?_, ih _⟩
      intro b hb he
      exact (dedupAux_mem_not_seen hb) (by rw [← he]; exact List.mem_cons_self _ _)

theorem dedupAux_subset {seen : List Str} {rows : List CRow} {r : CRow}
    (h : r ∈ dedupAux seen rows) : r ∈ rows := by
  induction rows generalizing seen with
  | nil => simp [dedupAux] at h
  | cons x rest ih =>
    rw [dedupAux] at h
    by_cases hx : x.itemNumber ∈ seen
    · rw [if_pos hx] at h
      exact List.mem_cons_of_mem _ (ih h)
    · rw [if_neg hx] at h
      rcases List.mem_cons.mp h with h | h
      · subst h; exact List.mem_cons_self _ _
      · exact List.mem_cons_of_mem _ (ih h)

theorem dedupAux_find {seen : List Str} {rows : List CRow} {r : CRow}
    (h : r ∈ dedupAux seen rows) :
    rows.find? (fun x => x.itemNumber == r.itemNumber) = some r := by
  induction rows generalizing seen with
  | nil => simp [dedupAux] at h
  | cons x rest ih =>
    rw [dedupAux] at h
    by_cases hx : x.itemNumber ∈ seen
    · rw [if_pos hx] at h
      have hr := dedupAux_mem_not_seen h
      have hne : (x.itemNumber == r.itemNumber) = false := by
        rw [beq_eq_false_iff_ne]
        intro he
        exact hr (he ▸ hx)
      rw [List.find?_cons, hne]
      exact ih h
    · rw [if_neg hx] at h
      rcases List.mem_cons.mp h with h | h
      · subst h
        rw [List.find?_cons, beq_self_eq_true]
      · have hr := dedupAux_mem_not_seen h
        have hne : (x.itemNumber == r.itemNumber) = false := by
          rw [beq_eq_false_iff_ne]
          intro he
          exact hr (he ▸ List.mem_cons_self _ _)
        rw [List.find?_cons, hne]
        exact ih h

theorem dedupAux_complete {seen : List Str} {rows : List CRow} {r : CRow}
    (h : r ∈ rows) (hs : r.itemNumber ∉ seen) :
    ∃ q ∈ dedupAux seen rows, q.itemNumber = r.itemNumber := by
  induction rows generalizing seen with
  | nil => simp at h
  | cons x rest ih =>
    rw [dedupAux]
    by_cases hx : x.itemNumber ∈ seen
    · rw [if_pos hx]
      rcases List.mem_cons.mp h with h | h
      · exact absurd (h ▸ hx) hs
      · exact ih h hs
    · rw [if_neg hx]
      by_cases he : x.itemNumber = r.itemNumber
      · exact ⟨x, List.mem_cons_self _ _, he⟩
      · rcases List.mem_cons.mp h with h | h
        · exact absurd (by rw [h]) he
        · obtain ⟨q, hq, hqe⟩ := ih h (by
            intro hc
            rcases List.mem_cons.mp hc with hc | hc
            · exact he hc.symm
            · exact hs hc)
          exact ⟨q, List.mem_cons_of_mem _ hq, hqe⟩

theorem perFileFinal_norm {file : List (List CRow)} {r : CRow}
    (h : r ∈ perFileFinal file) : firstDigitRun r.itemNumber = some r.itemNumber := by
  rw [perFileFinal] at h
  rw [List.mem_filterMap] at h
  obtain ⟨q, _, hq⟩ := h
  rw [normRow] at hq
  cases hf : firstDigitRun q.itemNumber with
  | none => rw [hf] at hq; simp at hq
  | some k =>
    rw [hf] at hq
    obtain ⟨hne, hdig⟩ := firstDigitRun_spec hf
    rw [Option.some_bind, if_neg hne] at hq
    simp only [Option.some.injEq] at hq
    rw [← hq]
    exact firstDigitRun_of_allDig hne hdig

/-- Claim C2: after consolidation, no two records share a (normalized)
business key; every retained record is the first record with its key in
concatenation order; and no key is lost.  The second conjunct also shows
retained keys are already in normalized (digit-run) form, so distinctness
of keys and of normalized keys coincide. -/
theorem claim2_dedup_first_seen (files : List (List (List CRow))) (r : CRow) :
    ((consolidate files).Pairwise (fun a b => a.itemNumber ≠ b.itemNumber)) ∧
    (r ∈ consolidate files →
      firstDigitRun r.itemNumber = some r.itemNumber ∧
      ((files.map perFileFinal).flatten).find?
        (fun x => x.itemNumber == r.itemNumber) = some r) ∧
    (r ∈ (files.map perFileFinal).flatten →
      ∃ q ∈ consolidate files, q.itemNumber = r.itemNumber) := by
  refine ⟨dedupAux_pairwise [] _, ?_, ?_⟩
  · intro h
    refine ⟨?_, dedupAux_find h⟩
    have hmem := dedupAux_subset h
    rw [List.mem_flatten] at hmem
    obtain ⟨l, hl, hrl⟩ := hmem
    rw [List.mem_map] at hl
    obtain ⟨file, _, hfe⟩ := hl
    exact perFileFinal_norm (hfe ▸ hrl)
  · intro h
    exact dedupAux_complete h (by simp)

/-- Two one-sheet files both contributing key 1001, different vendors. -/
def c2files : List (List (List CRow)) :=
  [[[⟨s2l "1001", s2l "VendorA"⟩]], [[⟨s2l "1001", s2l "VendorB"⟩]]]

def c2rec : CRow := ⟨s2l "1001", s2l "VendorA"⟩

/-- Claim C2 witness: the first-processed record wins the duplicate key and
keys remain unique. -/
theorem claim2_witness :
    ((consolidate c2files).Pairwise (fun a b => a.itemNumber ≠ b.itemNumber)) ∧
    (firstDigitRun c2rec.itemNumber = some c2rec.itemNumber ∧
      ((c2files.map perFileFinal).flatten).find?
        (fun x => x.itemNumber == c2rec.itemNumber) = some c2rec) :=
  ⟨(claim2_dedup_first_seen c2files c2rec).1,
   (claim2_dedup_first_seen c2files c2rec).2.1 (by decide)⟩

-- ## Claim C4

/-- Claim C4: business-key normalization is idempotent, both for
clean_item_number and for the vectorized digit-run extraction. -/
theorem claim4_normalization_idempotent :
    (∀ v : Str, clean_item_number (clean_item_number v) = clean_item_number v) ∧
    (∀ c : Option Str, extractKeyCell (extractKeyCell c) = extractKeyCell c) :=
  ⟨clean_item_number_idem, extractKeyCell_idem⟩

-- ## Claim C3

/-- Claim C3 (refuted; the code contradicts the intended scoring visible in
the sibling extract_from_sheet): on the one-row sample whose cells read
"item number" and "vbu", exactly two canonical fields have a matching cell
(specRowScore = 2), so by the claim the row must be accepted as header; but
find_header_row_fast reports no header.  Its "if score > best_score: break"
inside the header scan aborts the VBU scan at the first cell (score 1 >
best 0) before the matching "vbu" cell is reached, so the computed score
stays 1. -/
theorem claim3_header_threshold_bug :
    find_header_row_fast [[some (s2l "item number"), some (s2l "vbu")]] = none ∧
    specRowScore [some (s2l "item number"), some (s2l "vbu")] = 2 := by
  decide

-- ## Claim C6

/-- Claim C6: the tracker processor retains a row iff its status value is
exactly one of the three accepted literals, and on every retained row
Re-Release Status is "Yes" iff the upper-cased status contains "R2" or
"R3", else empty. -/
theorem claim6_tracker_status_filter (rows : List TrackRaw) (out : List TrackRec)
    (h : processTrackerSheet rows = some out) :
    (∀ r : TrackRaw, r ∈ rows.filter trackKeep ↔ r ∈ rows ∧ ∃ v, r.rounds = some v ∧
      (v = s2l "File Release" ∨ v = s2l "File Re-Release R2" ∨
        v = s2l "File Re-Release R3")) ∧
    (∀ rec ∈ out,
      (rec.reRelease = s2l "Yes" ↔
        (substrIn (s2l "R2") (upperS rec.rounds) = true ∨
         substrIn (s2l "R3") (upperS rec.rounds) = true)) ∧
      (rec.reRelease = s2l "Yes" ∨ rec.reRelease = [])) := by
  constructor
  · intro r
    rw [List.mem_filter]
    constructor
    · rintro ⟨hr, hk⟩
      refine ⟨hr, ?_⟩
      rw [trackKeep] at hk
      cases hv : r.rounds with
      | none => rw [hv] at hk; simp at hk
      | some v =>
        rw [hv] at hk
        rw [decide_eq_true_eq] at hk
        refine ⟨v, rfl, ?_⟩
        simpa [filterVals] using hk
    · rintro ⟨hr, v, hv, hlit⟩
      refine ⟨hr, ?_⟩
      rw [trackKeep, hv, decide_eq_true_eq]
      simpa [filterVals] using hlit
  · intro rec hrec
    have hout : out = (rows.filter trackKeep).map trackTransform := by
      rw [processTrackerSheet] at h
      by_cases he : rows.filter trackKeep = []
      · rw [if_pos he] at h; simp at h
      · rw [if_neg he] at h
        exact (Option.some.injEq _ _ ▸ h).symm
    rw [hout] at hrec
    rw [List.mem_map] at hrec
    obtain ⟨r, hr, hre⟩ := hrec
    have hk := (List.mem_filter.mp hr).2
    rw [trackKeep] at hk
    cases hv : r.rounds with
    | none => rw [hv] at hk; simp at hk
    | some v =>
      have hrounds : rec.rounds = v := by rw [← hre, trackTransform, hv]; rfl
      have hrr : rec.reRelease = reReleaseOf (some v) := by
        rw [← hre, trackTransform, hv]
      rw [hrounds, hrr, reReleaseOf]
      by_cases hc : (substrIn (s2l "R2") (upperS (pyStr (some v))) ||
          substrIn (s2l "R3") (upperS (pyStr (some v)))) = true
      · rw [if_pos hc]
        rw [Bool.or_eq_true] at hc
        constructor
        · constructor
          · intro _
            simpa [pyStr] using hc
          · intro _; rfl
        · left; rfl
      · rw [if_neg hc]
        rw [Bool.or_eq_true] at hc
        push_neg at hc
        constructor
        · constructor
          · intro hy
            exact absurd hy (by decide)
          · intro hor
            rcases hor with hor | hor
            · exact absurd (by simpa [pyStr] using hor) hc.1
            · exact absurd hor hc.2
        · right; rfl

def c6rows : List TrackRaw :=
  [ ⟨some (s2l "File Re-Release R2"), some (s2l "1001"), some (s2l "H1"), some (s2l "15/03/24")⟩
  , ⟨some (s2l "File Release"), some (s2l "1002"), none, none⟩
  , ⟨some (s2l "WIP"), some (s2l "1003"), none, none⟩
  , ⟨none, none, none, none⟩ ]

def c6out : List TrackRec := (c6rows.filter trackKeep).map trackTransform

def c6r0 : TrackRaw :=
  ⟨some (s2l "File Re-Release R2"), some (s2l "1001"), some (s2l "H1"),
    some (s2l "15/03/24")⟩

/-- Claim C6 witness: on concrete tracker rows, the File Re-Release R2 row
is retained and its transform carries Re-Release Status "Yes" or "". -/
theorem claim6_witness :
    c6r0 ∈ c6rows.filter trackKeep ∧
    ((trackTransform c6r0).reRelease = s2l "Yes" ∨ (trackTransform c6r0).reRelease = []) :=
  ⟨((claim6_tracker_status_filter c6rows c6out (by decide)).1 c6r0).mpr
     ⟨by decide, s2l "File Re-Release R2", rfl, Or.inr (Or.inl rfl)⟩,
   ((claim6_tracker_status_filter c6rows c6out (by decide)).2
     (trackTransform c6r0) (by decide)).2⟩

-- ## Claim C7

def c7row : TrackRaw :=
  ⟨some (s2l "File Release"), some (s2l "1001"), some (s2l "H1"), some (s2l "03/04/24")⟩

/-- Claim C7 counterexample: a retained tracker row dated "03/04/24".
Parsing with day/month/2-digit-year and reformatting (specTrackDate) gives
back "03/04/24", but the code calls pd.to_datetime with no format, which
reads the value month-first as March 4 and reformats it to "04/03/24".
Also, a non-empty unparseable value yields NaN, not the empty string. -/
theorem claim7_counterexample :
    processTrackerSheet [c7row] = some [trackTransform c7row] ∧
    (trackTransform c7row).releaseDate = some (s2l "04/03/24") ∧
    specTrackDate (s2l "03/04/24") = s2l "03/04/24" ∧
    (trackTransform c7row).releaseDate ≠ some (specTrackDate (s2l "03/04/24")) ∧
    trackDate (some (s2l "notadate")) = none := by
  decide

/-- Claim C7 as amended: for every retained tracker row, the release-date
field is the raw value parsed by pandas' default (month-first) parser and
reformatted to day/month/2-digit-year text; a missing or empty raw value
yields the empty string, and a non-empty value that fails to parse yields
a missing value (NaN), not the empty string. -/
theorem claim7_release_date_amended (rows : List TrackRaw) (out : List TrackRec)
    (h : processTrackerSheet rows = some out) :
    ∀ r ∈ rows.filter trackKeep, trackTransform r ∈ out ∧
      (trackTransform r).releaseDate =
        (match r.releaseDate with
         | none => some []
         | some v => if v = [] then some [] else (pdToDatetime v).map fmtDMY2) := by
  intro r hr
  have hout : out = (rows.filter trackKeep).map trackTransform := by
    rw [processTrackerSheet] at h
    by_cases he : rows.filter trackKeep = []
    · rw [if_pos he] at h; simp at h
    · rw [if_neg he] at h
      exact (Option.some.injEq _ _ ▸ h).symm
  constructor
  · rw [hout]
    exact List.mem_map_of_mem trackTransform hr
  · rw [trackTransform]
    cases r.releaseDate with
    | none => rfl
    | some v => rfl

/-- Claim C7 witness (for the amended claim): the concrete retained row is
processed and its release date is "03/04/24" re-rendered month-first. -/
theorem claim7_witness :
    trackTransform c7row ∈ [trackTransform c7row] ∧
    (trackTransform c7row).releaseDate =
      (match c7row.releaseDate with
       | none => some []
       | some v => if v = [] then some [] else (pdToDatetime v).map fmtDMY2) :=
  claim7_release_date_amended [c7row] [trackTransform c7row] (by decide) c7row (by decide)

-- ## Claim C9

/-- Claim C9: the date-range filter is non-fatal and atomic on error: on a
run reaching it (nonempty combined data), if no column name matches the
heuristics, or an internal exception occurs during parsing/filtering, the
stage reports success and the combined dataset passes through unchanged. -/
theorem claim9_date_filter_nonfatal (cols : List Str) (s e : Date)
    (rows : List JRow) (err : Bool) (hne : rows ≠ []) :
    (findDateCol cols = none → filter_by_date_rangeE cols s e rows err = (rows, true)) ∧
    (err = true → filter_by_date_rangeE cols s e rows err = (rows, true)) := by
  constructor
  · intro hcol
    rw [filter_by_date_rangeE, if_neg hne, hcol]
  · intro herr
    rw [filter_by_date_rangeE, if_neg hne]
    cases hcol : findDateCol cols with
    | none => rfl
    | some c => rw [herr, if_pos rfl]

def c9row : JRow :=
  ⟨none, some ⟨s2l "File Release", s2l "1001", s2l "H1", some (s2l "15/03/24"), []⟩,
   s2l "1001", tagRight⟩

/-- Claim C9 witness: with no matching column name the rows pass through
with success, and an internal exception also passes them through with
success. -/
theorem claim9_witness :
    (filter_by_date_rangeE [s2l "Item Number"] ⟨2024, 1, 1⟩ ⟨2024, 4, 1⟩ [c9row] false =
      ([c9row], true)) ∧
    (filter_by_date_rangeE combinedCols ⟨2024, 1, 1⟩ ⟨2024, 4, 1⟩ [c9row] true =
      ([c9row], true)) :=
  ⟨(claim9_date_filter_nonfatal [s2l "Item Number"] ⟨2024, 1, 1⟩ ⟨2024, 4, 1⟩ [c9row] false
      (by decide)).1 (by decide),
   (claim9_date_filter_nonfatal combinedCols ⟨2024, 1, 1⟩ ⟨2024, 4, 1⟩ [c9row] true
      (by decide)).2 rfl⟩

-- ## Claim C5

/-- Claim C5: when the date filter actually runs (nonempty combined data,
a date column found), a reconciled row is retained iff its date value
parses under day/month/2-digit-year or, failing that, day/month/4-digit-year,
with the parsed date inside [s, e] inclusive. -/
theorem claim5_date_filter_range (cols : List Str) (col : Str) (s e : Date)
    (rows : List JRow) (hne : rows ≠ []) (hcol : findDateCol cols = some col)
    (j : JRow) :
    j ∈ (filter_by_date_range cols s e rows).1 ↔
      j ∈ rows ∧ ∃ d, parsedDate j = some d ∧ dateLE s d = true ∧ dateLE d e = true := by
  rw [filter_by_date_range, filter_by_date_rangeE, if_neg hne, hcol]
  simp only [Bool.false_eq_true, if_false]
  rw [List.mem_filter]
  constructor
  · rintro ⟨hj, hk⟩
    refine ⟨hj, ?_⟩
    rw [keepRow] at hk
    cases hd : parsedDate j with
    | none => rw [hd] at hk; simp at hk
    | some d =>
      rw [hd] at hk
      rw [Bool.and_eq_true] at hk
      exact ⟨d, rfl, hk.1, hk.2⟩
  · rintro ⟨hj, d, hd, h1, h2⟩
    refine ⟨hj, ?_⟩
    rw [keepRow, hd]
    show (dateLE s d && dateLE d e) = true
    rw [h1, h2]
    rfl

/-- A tracker record whose release date string is the argument. -/
def tRecWithDate (v : Str) : TrackRec :=
  ⟨s2l "File Release", s2l "1001", s2l "H1", some v, []⟩

def jRowWithDate (v : Str) : JRow :=
  ⟨some ⟨s2l "1001", s2l "VendorA"⟩, some (tRecWithDate v), s2l "1001", tagBoth⟩

def c5rows : List JRow :=
  [ jRowWithDate (s2l "10/01/24"), jRowWithDate (s2l "09/01/24")
  , jRowWithDate (s2l "15/03/24"), jRowWithDate (s2l "16/03/24")
  , jRowWithDate (s2l "15/03/2024"), jRowWithDate (s2l "2024-02-01") ]

/-- Claim C5 witness, range 2024-01-10 .. 2024-03-15: rows dated exactly on
the start and exactly on the end bound are retained (the latter in
4-digit-year form, caught by the second parse pass); rows one day outside
either bound and an unparseable row are dropped. -/
theorem claim5_witness :
    (jRowWithDate (s2l "10/01/24") ∈
      (filter_by_date_range combinedCols ⟨2024, 1, 10⟩ ⟨2024, 3, 15⟩ c5rows).1) ∧
    (jRowWithDate (s2l "15/03/2024") ∈
      (filter_by_date_range combinedCols ⟨2024, 1, 10⟩ ⟨2024, 3, 15⟩ c5rows).1) ∧
    ¬ (jRowWithDate (s2l "09/01/24") ∈
      (filter_by_date_range combinedCols ⟨2024, 1, 10⟩ ⟨2024, 3, 15⟩ c5rows).1) ∧
    ¬ (jRowWithDate (s2l "16/03/24") ∈
      (filter_by_date_range combinedCols ⟨2024, 1, 10⟩ ⟨2024, 3, 15⟩ c5rows).1) ∧
    ¬ (jRowWithDate (s2l "2024-02-01") ∈
      (filter_by_date_range combinedCols ⟨2024, 1, 10⟩ ⟨2024, 3, 15⟩ c5rows).1) := by
  refine ⟨?_, ?_, ?_, ?_, ?_⟩
  · exact (claim5_date_filter_range combinedCols (s2l "Artwork Release Date")
      ⟨2024, 1, 10⟩ ⟨2024, 3, 15⟩ c5rows (by decide) (by decide) _).mpr
      ⟨by decide, ⟨2024, 1, 10⟩, by decide, by decide, by decide⟩
  · exact (claim5_date_filter_range combinedCols (s2l "Artwork Release Date")
      ⟨2024, 1, 10⟩ ⟨2024, 3, 15⟩ c5rows (by decide) (by decide) _).mpr
      ⟨by decide, ⟨2024, 3, 15⟩, by decide, by decide, by decide⟩
  · intro hmem
    have h := (claim5_date_filter_range combinedCols (s2l "Artwork Release Date")
      ⟨2024, 1, 10⟩ ⟨2024, 3, 15⟩ c5rows (by decide) (by decide) _).mp hmem
    obtain ⟨-, d, hd, h1, h2⟩ := h
    have hde : d = ⟨2024, 1, 9⟩ := by
      have : parsedDate (jRowWithDate (s2l "09/01/24")) = some ⟨2024, 1, 9⟩ := by decide
      rw [this] at hd
      exact (Option.some.injEq _ _ ▸ hd).symm
    rw [hde] at h1
    exact absurd h1 (by decide)
  · intro hmem
    have h := (claim5_date_filter_range combinedCols (s2l "Artwork Release Date")
      ⟨2024, 1, 10⟩ ⟨2024, 3, 15⟩ c5rows (by decide) (by decide) _).mp hmem
    obtain ⟨-, d, hd, h1, h2⟩ := h
    have hde : d = ⟨2024, 3, 16⟩ := by
      have : parsedDate (jRowWithDate (s2l "16/03/24")) = some ⟨2024, 3, 16⟩ := by decide
      rw [this] at hd
      exact (Option.some.injEq _ _ ▸ hd).symm
    rw [hde] at h2
    exact absurd h2 (by decide)
  · intro hmem
    have h := (claim5_date_filter_range combinedCols (s2l "Artwork Release Date")
      ⟨2024, 1, 10⟩ ⟨2024, 3, 15⟩ c5rows (by decide) (by decide) _).mp hmem
    obtain ⟨-, d, hd, -, -⟩ := h
    have : parsedDate (jRowWithDate (s2l "2024-02-01")) = none := by decide
    rw [this] at hd
    exact Option.noConfusion hd

-- ## Claim C8

/-- Claim C8 counterexample: the date-filter stage, given one combined row
whose date value parses under neither format, retains zero rows yet reports
success; and the output-projection stage on the resulting empty dataset
also reports success (with an empty final output).  So these two stages are
not fail-fast and a later stage does run on an empty dataset. -/
theorem claim8_counterexample :
    (filter_by_date_range combinedCols ⟨2024, 1, 1⟩ ⟨2024, 4, 1⟩
      [jRowWithDate (s2l "2024-02-01")]).1 = [] ∧
    (filter_by_date_range combinedCols ⟨2024, 1, 1⟩ ⟨2024, 4, 1⟩
      [jRowWithDate (s2l "2024-02-01")]).2 = true ∧
    (format_final_output []).1 = [] ∧
    (format_final_output []).2 = true := by
  decide

/-- Claim C8 as amended: the combination and tracker stages are fail-fast
(they fail when an input side is empty, resp. when no row survives the
status filter), and the date filter fails on an empty input; but on a
nonempty input the date-filter stage always reports success, even when it
retains zero rows or hits an internal error, and the output-projection
stage always reports success, even on an empty input. -/
theorem claim8_fail_fast_amended :
    (∀ (c : List CRow) (t : List TrackRec), (c = [] ∨ t = []) →
      combine_datasets c t = none) ∧
    (∀ rows : List TrackRaw, rows.filter trackKeep = [] →
      processTrackerSheet rows = none) ∧
    (∀ (cols : List Str) (s e : Date) (err : Bool),
      filter_by_date_rangeE cols s e [] err = ([], false)) ∧
    (∀ (cols : List Str) (s e : Date) (rows : List JRow) (err : Bool), rows ≠ [] →
      (filter_by_date_rangeE cols s e rows err).2 = true) ∧
    (∀ rows : List JRow, (format_final_output rows).2 = true) := by
  refine ⟨?_, ?_, ?_, ?_, ?_⟩
  · intro c t h
    rw [combine_datasets, if_pos h]
  · intro rows h
    rw [processTrackerSheet, if_pos h]
  · intro cols s e err
    rw [filter_by_date_rangeE, if_pos rfl]
  · intro cols s e rows err hne
    rw [filter_by_date_rangeE, if_neg hne]
    cases findDateCol cols with
    | none => rfl
    | some c => cases err <;> rfl
  · intro rows
    by_cases h : rows = []
    · rw [format_final_output, if_pos h]
    · rw [format_final_output, if_neg h]

/-- Claim C8 witness (for the amended claim): concrete instances of each
amended conjunct. -/
theorem claim8_witness :
    combine_datasets ([] : List CRow) [tRecWithDate (s2l "15/03/24")] = none ∧
    filter_by_date_rangeE combinedCols ⟨2024, 1, 1⟩ ⟨2024, 4, 1⟩ [] false = ([], false) ∧
    (filter_by_date_rangeE combinedCols ⟨2024, 1, 1⟩ ⟨2024, 4, 1⟩ [c9row] false).2 = true ∧
    (format_final_output [c9row]).2 = true :=
  ⟨claim8_fail_fast_amended.1 [] [tRecWithDate (s2l "15/03/24")] (Or.inl rfl),
   claim8_fail_fast_amended.2.2.1 combinedCols ⟨2024, 1, 1⟩ ⟨2024, 4, 1⟩ false,
   claim8_fail_fast_amended.2.2.2.1 combinedCols ⟨2024, 1, 1⟩ ⟨2024, 4, 1⟩ [c9row] false
     (by decide),
   claim8_fail_fast_amended.2.2.2.2 [c9row]⟩

-- ## Outer-merge lemmas

theorem pairwise_key_nodup {α : Type} (κ : α → Str) {l : List α}
    (h : l.Pairwise (fun a b => κ a ≠ κ b)) : l.Nodup :=
  h.imp (fun hab heq => hab (congrArg κ heq))

theorem memBlock_left {rs : List TrackRec} {l : CRow} {j : JRow}
    (h : j ∈ mergeBlock rs l) :
    j.left = some l ∧ (j.tag = tagLeft ∨ j.tag = tagBoth) := by
  rw [mergeBlock] at h
  by_cases hm : matchesR rs (mergeKeyL l) = []
  · rw [if_pos hm] at h
    simp only [List.mem_singleton] at h
    subst h
    exact ⟨rfl, Or.inl rfl⟩
  · rw [if_neg hm] at h
    rw [List.mem_map] at h
    obtain ⟨r, _, he⟩ := h
    subst he
    exact ⟨rfl, Or.inr rfl⟩

theorem memFlatMap_left {ls : List CRow} {rs : List TrackRec} {j : JRow}
    (h : j ∈ ls.flatMap (mergeBlock rs)) : ∃ l ∈ ls, j.left = some l := by
  rw [List.mem_flatMap] at h
  obtain ⟨l, hl, hb⟩ := h
  exact ⟨l, hl, (memBlock_left hb).1⟩

theorem blockLen {rs : List TrackRec}
    (hrs : rs.Pairwise (fun a b => mergeKeyR a ≠ mergeKeyR b)) (l : CRow) :
    (mergeBlock rs l).length = 1 := by
  rw [mergeBlock]
  by_cases hm : matchesR rs (mergeKeyL l) = []
  · rw [if_pos hm]
    rfl
  · rw [if_neg hm, List.length_map]
    have hle : (matchesR rs (mergeKeyL l)).length ≤ 1 :=
      filter_key_len_le_one mergeKeyR (mergeKeyL l) rs hrs
    have hge : 0 < (matchesR rs (mergeKeyL l)).length := List.length_pos.mpr hm
    omega

theorem flatMapLen_one {α β : Type} (f : α → List β) (l : List α)
    (h : ∀ a ∈ l, (f a).length = 1) : (l.flatMap f).length = l.length := by
  induction l with
  | nil => rfl
  | cons a t ih =>
    rw [List.flatMap_cons, List.length_append, h a (List.mem_cons_self a t),
      ih (fun b hb => h b (List.mem_cons_of_mem a hb)), List.length_cons]
    omega

theorem flatMapCountLeft {rs : List TrackRec}
    (hrs : rs.Pairwise (fun a b => mergeKeyR a ≠ mergeKeyR b)) :
    ∀ ls : List CRow, ls.Pairwise (fun a b => mergeKeyL a ≠ mergeKeyL b) →
      ∀ l ∈ ls,
        ((ls.flatMap (mergeBlock rs)).filter (fun j => j.left = some l)).length = 1 := by
  intro ls
  induction ls with
  | nil =>
    intro _ l hl
    simp at hl
  | cons x rest ih =>
    intro hp l hl
    rw [List.pairwise_cons] at hp
    rw [List.flatMap_cons, List.filter_append, List.length_append]
    rcases List.mem_cons.mp hl with hl | hl
    · subst hl
      have h1 : (mergeBlock rs l).filter (fun j => decide (j.left = some l)) =
          mergeBlock rs l := by
        apply List.filter_eq_self.mpr
        intro j hj
        rw [decide_eq_true_eq]
        exact (memBlock_left hj).1
      have h2 : (rest.flatMap (mergeBlock rs)).filter
          (fun j => decide (j.left = some l)) = [] := by
        apply filter_nil_of_all_false
        intro j hj
        rw [decide_eq_false_iff_not]
        obtain ⟨l', hl', he⟩ := memFlatMap_left hj
        rw [he]
        intro hc
        have hll : l' = l := by injection hc
        subst hll
        exact hp.1 l' hl' rfl
      rw [h1, h2, blockLen hrs]
      rfl
    · have hx : x ≠ l := by
        intro he
        exact hp.1 l hl (by rw [he])
      have h1 : (mergeBlock rs x).filter (fun j => decide (j.left = some l)) = [] := by
        apply filter_nil_of_all_false
        intro j hj
        rw [decide_eq_false_iff_not]
        rw [(memBlock_left hj).1]
        intro hc
        exact hx (by injection hc)
      rw [h1]
      rw [List.length_nil, Nat.zero_add]
      exact ih hp.2 l hl

theorem blockCountRight {rs : List TrackRec}
    (hrs : rs.Pairwise (fun a b => mergeKeyR a ≠ mergeKeyR b)) {r : TrackRec}
    (hr : r ∈ rs) (l : CRow) :
    ((mergeBlock rs l).filter (fun j => j.right = some r)).length =
      if mergeKeyL l = mergeKeyR r then 1 else 0 := by
  rw [mergeBlock]
  by_cases hk : mergeKeyL l = mergeKeyR r
  · rw [if_pos hk]
    have hrm : r ∈ matchesR rs (mergeKeyL l) := by
      rw [matchesR, List.mem_filter]
      exact ⟨hr, by rw [decide_eq_true_eq]; exact hk.symm⟩
    have hm : matchesR rs (mergeKeyL l) ≠ [] := by
      intro h0
      rw [h0] at hrm
      simp at hrm
    rw [if_neg hm]
    have hle : (matchesR rs (mergeKeyL l)).length ≤ 1 :=
      filter_key_len_le_one mergeKeyR (mergeKeyL l) rs hrs
    rw [singleton_of_mem_len_le_one hrm hle]
    simp
  · rw [if_neg hk]
    by_cases hm : matchesR rs (mergeKeyL l) = []
    · rw [if_pos hm]
      simp
    · rw [if_neg hm]
      rw [List.length_eq_zero]
      apply filter_nil_of_all_false
      intro j hj
      rw [decide_eq_false_iff_not]
      rw [List.mem_map] at hj
      obtain ⟨q, hq, he⟩ := hj
      subst he
      intro hc
      have hqr : q = r := by injection hc
      subst hqr
      have := (List.mem_filter.mp hq).2
      rw [decide_eq_true_eq] at this
      exact hk this.symm

theorem flatMapCountRight {rs : List TrackRec}
    (hrs : rs.Pairwise (fun a b => mergeKeyR a ≠ mergeKeyR b)) {r : TrackRec}
    (hr : r ∈ rs) :
    ∀ ls : List CRow,
      ((ls.flatMap (mergeBlock rs)).filter (fun j => j.right = some r)).length =
        (ls.filter (fun l => mergeKeyL l = mergeKeyR r)).length := by
  intro ls
  induction ls with
  | nil => rfl
  | cons x rest ih =>
    rw [List.flatMap_cons, List.filter_append, List.length_append, ih]
    rw [blockCountRight hrs hr x]
    rw [List.filter_cons]
    by_cases hk : mergeKeyL x = mergeKeyR r
    · rw [if_pos hk, if_pos (decide_eq_true hk)]
      rw [List.length_cons]
      omega
    · rw [if_neg hk, if_neg (fun h => hk (of_decide_eq_true h))]
      omega

theorem map_filter_len {α β : Type} (f : α → β) (p : β → Bool) (l : List α) :
    ((l.map f).filter p).length = (l.filter (fun a => p (f a))).length := by
  induction l with
  | nil => rfl
  | cons a t ih =>
    rw [List.map_cons, List.filter_cons, List.filter_cons]
    cases hp : p (f a) <;> simp [hp, ih]

theorem rightOnlyCountRight (ls : List CRow) {rs : List TrackRec}
    (hrs : rs.Pairwise (fun a b => mergeKeyR a ≠ mergeKeyR b)) {r : TrackRec}
    (hr : r ∈ rs) :
    ((rightOnly ls rs).filter (fun j => j.right = some r)).length =
      if ls.any (fun l => mergeKeyL l = mergeKeyR r) then 0 else 1 := by
  rw [rightOnly, map_filter_len]
  have hcong : ∀ q ∈ rs.filter (fun q => !(ls.any (fun l => mergeKeyL l = mergeKeyR q))),
      (decide ((JRow.mk none (some q) (mergeKeyR q) tagRight).right = some r)) =
      (decide (q = r)) := by
    intro q _
    simp
  rw [List.filter_congr hcong]
  by_cases hany : ls.any (fun l => mergeKeyL l = mergeKeyR r) = true
  · rw [if_pos hany, List.length_eq_zero]
    apply filter_nil_of_all_false
    intro q hq
    rw [decide_eq_false_iff_not]
    intro hqr
    subst hqr
    have := (List.mem_filter.mp hq).2
    rw [hany] at this
    simp at this
  · rw [if_neg hany]
    have hnd : (rs.filter (fun q => !(ls.any (fun l => mergeKeyL l = mergeKeyR q)))).Nodup :=
      (pairwise_key_nodup mergeKeyR hrs).filter _
    have hrm : r ∈ rs.filter (fun q => !(ls.any (fun l => mergeKeyL l = mergeKeyR q))) := by
      rw [List.mem_filter]
      refine ⟨hr, ?_⟩
      cases h : (ls.any fun l => decide (mergeKeyL l = mergeKeyR r)) with
      | true => exact absurd h hany
      | false => rfl
    exact nodup_filter_eq_len hnd hrm

theorem outerMerge_tags {ls : List CRow} {rs : List TrackRec} {j : JRow}
    (h : j ∈ outerMerge ls rs) :
    j.tag = tagBoth ∨ j.tag = tagLeft ∨ j.tag = tagRight := by
  rw [outerMerge, List.mem_append] at h
  rcases h with h | h
  · rcases (memBlock_left (List.mem_flatMap.mp h).choose_spec.2).2 with h2 | h2
    · exact Or.inr (Or.inl h2)
    · exact Or.inl h2
  · rw [rightOnly, List.mem_map] at h
    obtain ⟨r, _, he⟩ := h
    subst he
    exact Or.inr (Or.inr rfl)

theorem count_three_tags :
    ∀ jl : List JRow,
      (∀ j ∈ jl, j.tag = tagBoth ∨ j.tag = tagLeft ∨ j.tag = tagRight) →
      (jl.filter (fun j => j.tag = tagBoth)).length +
      (jl.filter (fun j => j.tag = tagLeft)).length +
      (jl.filter (fun j => j.tag = tagRight)).length = jl.length := by
  intro jl
  induction jl with
  | nil => intro _; rfl
  | cons j rest ih =>
    intro h
    have hrest := ih (fun x hx => h x (List.mem_cons_of_mem j hx))
    have d1 : tagBoth ≠ tagLeft := by decide
    have d2 : tagBoth ≠ tagRight := by decide
    have d3 : tagLeft ≠ tagRight := by decide
    rcases h j (List.mem_cons_self j rest) with hj | hj | hj <;>
      simp [List.filter_cons, hj, d1, d2, d3, d1.symm, d2.symm, d3.symm] <;>
      omega

theorem outerMerge_length {ls : List CRow} {rs : List TrackRec}
    (hrs : rs.Pairwise (fun a b => mergeKeyR a ≠ mergeKeyR b)) :
    (outerMerge ls rs).length =
      ls.length + (rs.filter (fun r => !(ls.any (fun l => mergeKeyL l = mergeKeyR r)))).length := by
  rw [outerMerge, List.length_append, rightOnly, List.length_map,
    flatMapLen_one _ _ (fun l _ => blockLen hrs l)]

theorem any_key_eq_mem_map (c : List CRow) (k : Str) :
    (c.any fun l => mergeKeyL l = k) = decide (k ∈ c.map mergeKeyL) := by
  induction c with
  | nil => simp
  | cons x rest ih =>
    rw [List.any_cons, ih, List.map_cons]
    by_cases h : mergeKeyL x = k
    · simp [h]
    · have h2 : ¬ (k = mergeKeyL x) := fun he => h he.symm
      simp [h, h2]

-- ## Claim C1

/-- Claim C1: when every merge key is non-empty and unique within its side,
every consolidated record and every tracker record appears in exactly one
reconciled row, and the rows tagged both + left-only + right-only
(Step1 + Step2 / Step1 Only / Step2 Only) number |c| + |t| minus the number
of tracker rows whose key also occurs on the consolidated side --- which,
keys being unique per side, is the number of keys common to both sides. -/
theorem claim1_join_completeness (c : List CRow) (t : List TrackRec)
    (joined : List JRow)
    (h1 : ∀ r ∈ c, mergeKeyL r ≠ [])
    (h2 : ∀ r ∈ t, mergeKeyR r ≠ [])
    (h3 : c.Pairwise (fun a b => mergeKeyL a ≠ mergeKeyL b))
    (h4 : t.Pairwise (fun a b => mergeKeyR a ≠ mergeKeyR b))
    (h5 : combine_datasets c t = some joined) :
    (∀ l ∈ c, (joined.filter (fun j => j.left = some l)).length = 1) ∧
    (∀ r ∈ t, (joined.filter (fun j => j.right = some r)).length = 1) ∧
    ((joined.filter (fun j => j.tag = tagBoth)).length +
     (joined.filter (fun j => j.tag = tagLeft)).length +
     (joined.filter (fun j => j.tag = tagRight)).length =
      c.length + t.length -
        (t.filter (fun r => mergeKeyR r ∈ c.map mergeKeyL)).length) := by
  rw [combine_datasets] at h5
  by_cases he : c = [] ∨ t = []
  · rw [if_pos he] at h5
    exact absurd h5 (by simp)
  rw [if_neg he] at h5
  have hc1 : c.filter (fun r => mergeKeyL r ≠ []) = c :=
    List.filter_eq_self.mpr (fun r hr => decide_eq_true (h1 r hr))
  have ht1 : t.filter (fun r => mergeKeyR r ≠ []) = t :=
    List.filter_eq_self.mpr (fun r hr => decide_eq_true (h2 r hr))
  rw [hc1, ht1] at h5
  have hj : joined = outerMerge c t := (Option.some.injEq _ _ ▸ h5).symm
  subst hj
  refine ⟨?_, ?_, ?_⟩
  · intro l hl
    rw [outerMerge, List.filter_append, List.length_append]
    have hro : (rightOnly c t).filter (fun j => decide (j.left = some l)) = [] := by
      apply filter_nil_of_all_false
      intro j hj
      rw [decide_eq_false_iff_not]
      rw [rightOnly, List.mem_map] at hj
      obtain ⟨r, _, he2⟩ := hj
      rw [← he2]
      simp
    rw [hro, List.length_nil, flatMapCountLeft h4 c h3 l hl]
  · intro r hr
    rw [outerMerge, List.filter_append, List.length_append]
    rw [flatMapCountRight h4 hr c, rightOnlyCountRight c h4 hr]
    by_cases hany : (c.any fun l => mergeKeyL l = mergeKeyR r) = true
    · rw [if_pos hany]
      have hle : (c.filter (fun l => mergeKeyL l = mergeKeyR r)).length ≤ 1 :=
        filter_key_len_le_one mergeKeyL (mergeKeyR r) c h3
      have hex : ∃ l ∈ c, mergeKeyL l = mergeKeyR r := by
        simpa [List.any_eq_true, decide_eq_true_eq] using hany
      obtain ⟨l0, hl0, hk0⟩ := hex
      have hmem : l0 ∈ c.filter (fun l => decide (mergeKeyL l = mergeKeyR r)) :=
        List.mem_filter.mpr ⟨hl0, decide_eq_true hk0⟩
      have hge : 0 < (c.filter (fun l => decide (mergeKeyL l = mergeKeyR r))).length := by
        apply List.length_pos.mpr
        intro h0
        rw [h0] at hmem
        simp at hmem
      omega
    · rw [if_neg hany]
      have h0 : c.filter (fun l => decide (mergeKeyL l = mergeKeyR r)) = [] := by
        apply filter_nil_of_all_false
        intro l hl
        rw [decide_eq_false_iff_not]
        intro hk
        exact hany (List.any_eq_true.mpr ⟨l, hl, decide_eq_true hk⟩)
      rw [h0]
      rfl
  · rw [count_three_tags _ (fun j hj => outerMerge_tags hj)]
    rw [outerMerge_length h4]
    have hsplit : (t.filter (fun r => c.any fun l => mergeKeyL l = mergeKeyR r)).length +
        (t.filter (fun r => !(c.any fun l => mergeKeyL l = mergeKeyR r))).length =
        t.length := len_filter_pos_neg _ t
    have hcong : t.filter (fun r => decide (mergeKeyR r ∈ c.map mergeKeyL)) =
        t.filter (fun r => c.any fun l => mergeKeyL l = mergeKeyR r) :=
      List.filter_congr (fun r _ => (any_key_eq_mem_map c (mergeKeyR r)).symm)
    rw [hcong]
    omega

def c1c : List CRow := [⟨s2l "1001", s2l "VendorA"⟩, ⟨s2l "2002", s2l "VendorB"⟩]

def c1t : List TrackRec :=
  [ ⟨s2l "File Release", s2l "1001", s2l "H1", some (s2l "15/03/24"), []⟩
  , ⟨s2l "File Re-Release R2", s2l "3003", s2l "H3", none, s2l "Yes"⟩ ]

/-- Claim C1 witness: two consolidated rows (keys 1001, 2002) against two
tracker rows (keys 1001, 3003): one common key, so 2 + 2 - 1 = 3 reconciled
rows, each input row in exactly one of them. -/
theorem claim1_witness :
    combine_datasets c1c c1t = some (outerMerge c1c c1t) ∧
    ((outerMerge c1c c1t).filter
      (fun j => j.left = some ⟨s2l "1001", s2l "VendorA"⟩)).length = 1 ∧
    ((outerMerge c1c c1t).filter (fun j => j.right =
      some ⟨s2l "File Release", s2l "1001", s2l "H1", some (s2l "15/03/24"), []⟩)).length = 1 ∧
    (((outerMerge c1c c1t).filter (fun j => j.tag = tagBoth)).length +
     ((outerMerge c1c c1t).filter (fun j => j.tag = tagLeft)).length +
     ((outerMerge c1c c1t).filter (fun j => j.tag = tagRight)).length =
      c1c.length + c1t.length -
        (c1t.filter (fun r => mergeKeyR r ∈ c1c.map mergeKeyL)).length) :=
  ⟨by decide,
   (claim1_join_completeness c1c c1t (outerMerge c1c c1t)
     (by decide) (by decide) (by decide) (by decide) (by decide)).1
     ⟨s2l "1001", s2l "VendorA"⟩ (by decide),
   (claim1_join_completeness c1c c1t (outerMerge c1c c1t)
     (by decide) (by decide) (by decide) (by decide) (by decide)).2.1
     ⟨s2l "File Release", s2l "1001", s2l "H1", some (s2l "15/03/24"), []⟩ (by decide),
   (claim1_join_completeness c1c c1t (outerMerge c1c c1t)
     (by decide) (by decide) (by decide) (by decide) (by decide)).2.2⟩

-- ## Claim C10

theorem outerMerge_tagRight_left_none {ls : List CRow} {rs : List TrackRec} {j : JRow}
    (hj : j ∈ outerMerge ls rs) (ht : j.tag = tagRight) : j.left = none := by
  rw [outerMerge, List.mem_append] at hj
  rcases hj with hj | hj
  · rw [List.mem_flatMap] at hj
    obtain ⟨l, _, hb⟩ := hj
    rcases (memBlock_left hb).2 with h2 | h2
    · rw [ht] at h2
      exact absurd h2 (by decide)
    · rw [ht] at h2
      exact absurd h2 (by decide)
  · rw [rightOnly, List.mem_map] at hj
    obtain ⟨r, _, he⟩ := hj
    rw [← he]

/-- Claim C10: a reconciled row that came only from the tracker side has an
all-NaN consolidated side, so its projected Item Number null-fills to the
empty string and format_final_output drops it: tracker-only rows never
reach the final canonical output. -/
theorem claim10_tracker_only_dropped (c : List CRow) (t : List TrackRec)
    (joined : List JRow) (h : combine_datasets c t = some joined)
    (j : JRow) (hj : j ∈ joined) (ht : j.tag = tagRight) :
    (projectRow j).itemNumber = [] ∧
    projectRow j ∉ (format_final_output joined).1 := by
  have hleft : j.left = none := by
    rw [combine_datasets] at h
    by_cases he : c = [] ∨ t = []
    · rw [if_pos he] at h
      exact absurd h (by simp)
    · rw [if_neg he] at h
      have hjo : joined = outerMerge (c.filter (fun r => mergeKeyL r ≠ []))
          (t.filter (fun r => mergeKeyR r ≠ [])) := (Option.some.injEq _ _ ▸ h).symm
      exact outerMerge_tagRight_left_none (hjo ▸ hj) ht
  have hitem : (projectRow j).itemNumber = [] := by
    rw [projectRow, hleft]
    rfl
  refine ⟨hitem, ?_⟩
  intro hmem
  have hne : joined ≠ [] := List.ne_nil_of_mem hj
  rw [format_final_output, if_neg hne] at hmem
  have := (List.mem_filter.mp hmem).2
  rw [decide_eq_true_eq] at this
  rw [hitem] at this
  exact this rfl

/-- Claim C10 witness: the key-3003 tracker-only row of the claim-1 demo
projects to an empty Item Number and is absent from the final output. -/
theorem claim10_witness :
    (projectRow ⟨none, some ⟨s2l "File Re-Release R2", s2l "3003", s2l "H3", none,
      s2l "Yes"⟩, s2l "3003", tagRight⟩).itemNumber = [] ∧
    projectRow ⟨none, some ⟨s2l "File Re-Release R2", s2l "3003", s2l "H3", none,
      s2l "Yes"⟩, s2l "3003", tagRight⟩ ∉
      (format_final_output (outerMerge c1c c1t)).1 :=
  claim10_tracker_only_dropped c1c c1t (outerMerge c1c c1t) (by decide)
    ⟨none, some ⟨s2l "File Re-Release R2", s2l "3003", s2l "H3", none, s2l "Yes"⟩,
      s2l "3003", tagRight⟩ (by decide) rfl
